import Mathlib

set_option autoImplicit false
set_option maxHeartbeats 1000000
set_option maxRecDepth 100000

/-
Shallow embedding of the OmniAPI MCP server (src/omniapi.js).

The server keeps an in-memory registry (a JavaScript Map from name to
a profile holding a base URL and a header object) and exposes four
tools: add_api, list_apis, call_api and discover_api.  External
library behaviour (node-fetch, JSON.parse, JSON.stringify,
URLSearchParams) is modelled by oracle functions collected in the
structure Ext; everything the repository itself does is translated
directly from the source.
-/

namespace Omni

/-- JSON values, as produced by JSON.parse in the JavaScript source. -/
inductive Json where
  | null : Json
  | bool (b : Bool) : Json
  | num (n : Int) : Json
  | str (s : String) : Json
  | arr (elems : List Json) : Json
  | obj (fields : List (String × Json)) : Json

/-- First-match lookup in an association list, modelling both JavaScript
object key access and Map.get (keys are unique in both, so first match
is the only match). -/
def alistGet {α : Type} (m : List (String × α)) (k : String) : Option α :=
  match m with
  | [] => none
  | (n, v) :: rest => if n = k then some v else alistGet rest k

/-- JavaScript truthiness of a JSON value: null, false, 0 and the empty
string are falsy; every object and array is truthy. -/
def jTruthy : Json → Bool
  | .null => false
  | .bool b => b
  | .num n => n != 0
  | .str s => s != ""
  | .arr _ => true
  | .obj _ => true

/-- JavaScript property access v[k]: key lookup on objects, index access
on strings and arrays (the keys fed here are the canonical decimal
strings produced by Object.keys), undefined (none) otherwise. -/
def jIndex (j : Json) (k : String) : Option Json :=
  match j with
  | .obj fields => alistGet fields k
  | .str s =>
    match k.toNat? with
    | some n => (s.data.get? n).map (fun c => Json.str (String.mk [c]))
    | none => none
  | .arr elems =>
    match k.toNat? with
    | some n => elems.get? n
    | none => none
  | _ => none

/-- Truthiness of doc[k] where an absent key (undefined) is falsy. -/
def jTruthyAt (doc : Json) (k : String) : Bool :=
  match jIndex doc k with
  | some v => jTruthy v
  | none => false

/-- Whether a JSON value is an object carrying key k (used only to state
claims about bodies that contain a given key). -/
def jHasKey (j : Json) (k : String) : Bool :=
  match j with
  | .obj fields => (alistGet fields k).isSome
  | _ => false

/-- JavaScript Object.keys: field names of an object, index strings for
strings and arrays, empty for the other primitives, and a TypeError
(modelled as none) on null or undefined arguments. -/
def objKeysE : Option Json → Option (List String)
  | none => none
  | some .null => none
  | some (.obj fields) => some (fields.map Prod.fst)
  | some (.str s) => some ((List.range s.length).map toString)
  | some (.arr elems) => some ((List.range elems.length).map toString)
  | some _ => some []

/-- Object.keys on a value already known not to throw (truthy values
never are null or undefined). -/
def jKeys (j : Json) : List String :=
  (objKeysE (some j)).getD []

/-- JavaScript Map.set: replace the value at an existing key in place,
otherwise append the new binding (insertion order is preserved). -/
def mapSet {α : Type} (m : List (String × α)) (k : String) (v : α) : List (String × α) :=
  match m with
  | [] => [(k, v)]
  | (n, w) :: rest => if n = k then (k, v) :: rest else (n, w) :: mapSet rest k v

/-- Uniqueness of the keys of an association list. -/
def keysNodup {α : Type} : List (String × α) → Bool
  | [] => true
  | (n, _) :: rest => !(alistGet rest n).isSome && keysNodup rest

/-- JavaScript object spread `\x7b...base, ...extra\x7d`: base keys keep
their positions, extra values win on key collision, and keys only in
extra are appended in their order. -/
def objMerge (base extra : List (String × String)) : List (String × String) :=
  base.map (fun p =>
    match alistGet extra p.1 with
    | some v => (p.1, v)
    | none => p)
  ++ extra.filter (fun p => (alistGet base p.1).isNone)

/-- baseUrl.replace of the trailing-slash regex with the empty string:
drop every trailing slash character. -/
def stripTrailingSlashes (s : String) : String :=
  String.mk ((s.data.reverse.dropWhile (fun c => c = '/')).reverse)

/-- JavaScript s.startsWith of a single slash: the first character is a
slash. -/
def startsWithSlash (s : String) : Bool :=
  match s.data with
  | [] => false
  | c :: _ => c = '/'

/-- A registry entry: base URL plus header object. -/
structure ApiConfig where
  baseUrl : String
  headers : List (String × String)
deriving DecidableEq, Repr

/-- The in-memory registry this.apis. -/
abbrev Registry := List (String × ApiConfig)

/-- An outbound HTTP request as assembled by the source before handing
it to fetch. -/
structure HttpRequest where
  url : String
  method : String
  headers : List (String × String)
  body : Option String
deriving DecidableEq, Repr

/-- An HTTP response as exposed by node-fetch: status, status text,
headers and the full body text. -/
structure HttpResponse where
  status : Nat
  statusText : String
  headers : List (String × String)
  body : String
deriving DecidableEq, Repr

/-- response.ok in fetch: status in the 200..299 range. -/
def respOk (r : HttpResponse) : Bool :=
  200 ≤ r.status && r.status < 300

/-- The data field of a call result: parsed JSON, or the raw body text
when parsing failed. -/
inductive RespData where
  | json (j : Json) : RespData
  | raw (s : String) : RespData

/-- The result object assembled by callApi before stringification. -/
structure CallResult where
  status : Nat
  statusText : String
  headers : List (String × String)
  data : RespData

/-- A textual tool result, optionally flagged as an error. -/
structure ToolContent where
  text : String
  isError : Bool
deriving DecidableEq, Repr

/-- Oracles for the external libraries the source calls: fetch (which
either returns a response or throws a message), JSON.parse (which
either parses or throws), JSON.stringify on the result record and on
request bodies, and URLSearchParams.toString. -/
structure Ext where
  net : HttpRequest → Except String HttpResponse
  jsonParse : String → Option Json
  stringify : CallResult → String
  stringifyJson : Json → String
  encodeParams : List (String × String) → String

/-- The header object installed by addApi: the default Content-Type
spread under the caller headers. -/
def defaultHeaders : List (String × String) := [("Content-Type", "application/json")]

/-- addApi: strip trailing slashes from the base URL, merge the caller
headers over the default one, store the entry (overwriting any entry of
the same name) and return the confirmation text. -/
def addApi (apis : Registry) (name baseUrl : String) (headers : List (String × String)) :
    Registry × ToolContent :=
  let cleanUrl := stripTrailingSlashes baseUrl
  (mapSet apis name ⟨cleanUrl, objMerge defaultHeaders headers⟩,
   ⟨"✅ API \"" ++ name ++ "\" added successfully!\nURL: " ++ cleanUrl ++
    "\n\nYou can now use:\n- call_api to make calls\n- discover_api to discover endpoints",
    false⟩)

/-- listApis: report the empty registry explicitly, otherwise list every
entry as a name/baseUrl bullet in insertion order. -/
def listApis (apis : Registry) : ToolContent :=
  if apis.length = 0 then
    ⟨"📝 No APIs configured yet.\n\nUse add_api to add an API.", false⟩
  else
    ⟨"📋 Configured APIs:\n\n" ++
     String.intercalate "\n" (apis.map (fun p => "• " ++ p.1 ++ ": " ++ p.2.baseUrl)),
     false⟩

/-- Arguments of a call_api invocation. -/
structure CallArgs where
  api : String
  endpoint : String
  method : String
  body : Option Json
  params : Option (List (String × String))

/-- URL building in callApi: concatenate the stored base URL with the
endpoint, inserting a slash only when the endpoint lacks one, then
append the encoded query string when params were given. -/
def buildUrl (ext : Ext) (cfg : ApiConfig) (endpoint : String)
    (params : Option (List (String × String))) : String :=
  let url := cfg.baseUrl ++ (if startsWithSlash endpoint then endpoint else "/" ++ endpoint)
  match params with
  | some ps => url ++ "?" ++ ext.encodeParams ps
  | none => url

/-- The fetch options assembled by callApi: the stored headers, and a
stringified body only for POST/PUT/PATCH with a truthy body. -/
def mkCallReq (ext : Ext) (cfg : ApiConfig) (a : CallArgs) : HttpRequest :=
  { url := buildUrl ext cfg a.endpoint a.params
    method := a.method
    headers := cfg.headers
    body :=
      if (match a.body with
          | some b => jTruthy b
          | none => false)
          && ["POST", "PUT", "PATCH"].contains a.method then
        a.body.map ext.stringifyJson
      else
        none }

/-- callApi: throw on an unregistered name before any request, build and
issue the request, read the body as text, JSON-parse it falling back to
the raw text, and bundle status, status text, flattened headers and
data.  The second component traces every request handed to fetch. -/
def callApi (ext : Ext) (apis : Registry) (a : CallArgs) :
    Except String (CallResult × ToolContent) × List HttpRequest :=
  if (alistGet apis a.api).isSome then
    let cfg := (alistGet apis a.api).getD ⟨"", []⟩
    let req := mkCallReq ext cfg a
    match ext.net req with
    | .error m => (.error m, [req])
    | .ok resp =>
      let responseData : RespData :=
        match ext.jsonParse resp.body with
        | some j => .json j
        | none => .raw resp.body
      let result : CallResult := ⟨resp.status, resp.statusText, resp.headers, responseData⟩
      (.ok (result, ⟨"🌐 Response from API \"" ++ a.api ++ "\":\n\n" ++ ext.stringify result, false⟩),
       [req])
  else
    (.error ("API \"" ++ a.api ++ "\" not found. Use list_apis to see available APIs."), [])

/-- The fixed ordered documentation candidate paths of discoverApi. -/
def commonPaths : List String :=
  ["/swagger.json", "/openapi.json", "/api-docs", "/docs",
   "/swagger/v1/swagger.json", "/v1/swagger.json", "/.well-known/openapi.json"]

/-- The fixed fallback resource paths of discoverApi. -/
def commonEndpoints : List String := ["/", "/api", "/health", "/status", "/users", "/posts"]

/-- The GET request a documentation probe issues for one candidate path. -/
def mkDocReq (cfg : ApiConfig) (path : String) : HttpRequest :=
  { url := cfg.baseUrl ++ path, method := "GET", headers := cfg.headers, body := none }

/-- The HEAD request a fallback probe issues for one common endpoint. -/
def mkHeadReq (cfg : ApiConfig) (endpoint : String) : HttpRequest :=
  { url := cfg.baseUrl ++ endpoint, method := "HEAD", headers := cfg.headers, body := none }

/-- JavaScript String.prototype.toUpperCase, character by character
(the method names and separators involved are ASCII). -/
def toUpperStr (s : String) : String :=
  String.mk (s.data.map Char.toUpper)

/-- One endpoint line of the discovery listing: Object.keys of the
methods object of this endpoint, comma-joined and uppercased; none when
Object.keys throws (a null or undefined entry). -/
def methodsLine (pv : Json) (endpoint : String) : Option String :=
  match objKeysE (jIndex pv endpoint) with
  | some ks => some ("• " ++ endpoint ++ " [" ++ toUpperStr (String.intercalate ", " ks) ++ "]\n")
  | none => none

/-- The forEach over Object.keys(doc.paths): append one line per
endpoint, stopping with a thrown flag when a methods lookup throws
(the exception is caught by the surrounding try of the probe loop). -/
def appendLines (pv : Json) (acc : String) : List String → String × Bool
  | [] => (acc, false)
  | e :: es =>
    match methodsLine pv e with
    | some line => appendLines pv (acc ++ line) es
    | none => (acc, true)

/-- The endpoint-listing block built after a documentation match: only
when doc.paths is truthy, a header line followed by one line per key of
doc.paths.  The flag records whether the forEach threw midway. -/
def formatDoc (d : String) (doc : Json) : String × Bool :=
  if jTruthyAt doc "paths" then
    let pv := (jIndex doc "paths").getD Json.null
    appendLines pv (d ++ "📋 Available endpoints:\n") (jKeys pv)
  else
    (d, false)

/-- One documentation probe: fetch baseUrl ++ path, and when the
response is ok, parses as JSON, and has a truthy paths, swagger or
openapi member, yield the parsed document; every other outcome
(thrown fetch, non-ok status, parse failure, no truthy key) is none
and the loop continues. -/
def docProbeResult (ext : Ext) (cfg : ApiConfig) (path : String) : Option Json :=
  match ext.net (mkDocReq cfg path) with
  | .error _ => none
  | .ok resp =>
    if respOk resp then
      match ext.jsonParse resp.body with
      | some doc =>
        if jTruthyAt doc "paths" || jTruthyAt doc "swagger" || jTruthyAt doc "openapi" then
          some doc
        else
          none
      | none => none
    else
      none

/-- The parsed document of one probe, defaulted (used only to state
claims without comparing Json values). -/
def docProbeDoc (ext : Ext) (cfg : ApiConfig) (path : String) : Json :=
  (docProbeResult ext cfg path).getD Json.null

/-- The first loop of discoverApi over the candidate paths, carrying the
accumulated discovered text.  A successful probe appends its banner and
listing and returns that text early; a probe whose listing throws keeps
its partial appends (the source mutates discovered before the throw)
and continues; any other probe just continues.  The trace records every
issued request. -/
def docLoop (ext : Ext) (cfg : ApiConfig) : List String → String →
    (Option String × String) × List HttpRequest
  | [], d => ((none, d), [])
  | path :: rest, d =>
    let req := mkDocReq cfg path
    match docProbeResult ext cfg path with
    | some doc =>
      let d1 := d ++ "✅ Documentation found at: " ++ path ++ "\n\n"
      let fd := formatDoc d1 doc
      if fd.2 then
        let r := docLoop ext cfg rest fd.1
        (r.1, req :: r.2)
      else
        ((some fd.1, fd.1), [req])
    | none =>
      let r := docLoop ext cfg rest d
      (r.1, req :: r.2)

/-- The second loop of discoverApi: a HEAD probe per common endpoint,
never stopping early, appending a success line exactly for the ok
responses and swallowing thrown probes. -/
def headLoop (ext : Ext) (cfg : ApiConfig) : List String → String × List HttpRequest
  | [] => ("", [])
  | e :: es =>
    let req := mkHeadReq cfg e
    let line :=
      match ext.net req with
      | .ok resp =>
        if respOk resp then "✅ " ++ e ++ " (" ++ toString resp.status ++ ")\n" else ""
      | .error _ => ""
    let r := headLoop ext cfg es
    (line ++ r.1, req :: r.2)

/-- discoverApi: throw on an unregistered name, try the documentation
paths in order, and when none succeeds fall back to HEAD probes of the
common endpoints, reporting the successful ones. -/
def discoverApi (ext : Ext) (apis : Registry) (api : String) :
    Except String ToolContent × List HttpRequest :=
  if (alistGet apis api).isSome then
    let cfg := (alistGet apis api).getD ⟨"", []⟩
    let d0 := "🔍 Trying to discover endpoints for API \"" ++ api ++ "\"...\n\n"
    let r1 := docLoop ext cfg commonPaths d0
    match r1.1.1 with
    | some text => (.ok ⟨text, false⟩, r1.2)
    | none =>
      let d2 := r1.1.2 ++ "❌ OpenAPI documentation not found.\n\n" ++
                "🔍 Testing common endpoints...\n\n"
      let r2 := headLoop ext cfg commonEndpoints
      (.ok ⟨d2 ++ r2.1 ++ "\n💡 Tip: Check the API documentation for specific endpoints.", false⟩,
       r1.2 ++ r2.2)
  else
    (.error ("API \"" ++ api ++ "\" not found."), [])

/-- A tool invocation as dispatched by the CallToolRequest handler. -/
inductive ToolCall where
  | add_api (name baseUrl : String) (headers : Option (List (String × String))) : ToolCall
  | list_apis : ToolCall
  | call_api (a : CallArgs) : ToolCall
  | discover_api (api : String) : ToolCall
  | other (name : String) : ToolCall

/-- The body of the try block of the dispatch handler: route to the
matching method, or throw the unknown-tool error.  The result carries
the possibly updated registry, and the trace of requests issued before
returning or throwing. -/
def rawDispatch (ext : Ext) (apis : Registry) :
    ToolCall → Except String (Registry × ToolContent) × List HttpRequest
  | .add_api name baseUrl headers =>
    let r := addApi apis name baseUrl (headers.getD [])
    (.ok (r.1, r.2), [])
  | .list_apis => (.ok (apis, listApis apis), [])
  | .call_api a =>
    let r := callApi ext apis a
    match r.1 with
    | .ok x => (.ok (apis, x.2), r.2)
    | .error m => (.error m, r.2)
  | .discover_api api =>
    let r := discoverApi ext apis api
    match r.1 with
    | .ok c => (.ok (apis, c), r.2)
    | .error m => (.error m, r.2)
  | .other name => (.error ("Unknown tool: " ++ name), [])

/-- The dispatch handler with its catch: any thrown failure becomes a
textual content block flagged isError, and never escapes. -/
def handleToolCall (ext : Ext) (apis : Registry) (call : ToolCall) :
    Registry × ToolContent × List HttpRequest :=
  match rawDispatch ext apis call with
  | (.ok rc, reqs) => (rc.1, rc.2, reqs)
  | (.error m, reqs) => (apis, ⟨"Error: " ++ m, true⟩, reqs)

/-! ### Derived observation functions used to state the claims -/

/-- Concatenation of a list of text lines (the effect of repeated
discovered += line). -/
def concatLines : List String → String
  | [] => ""
  | s :: rest => s ++ concatLines rest

/-- The success line one fallback probe contributes: the endpoint and
status for an ok response, nothing for a non-ok response or a thrown
probe. -/
def okLine (ext : Ext) (cfg : ApiConfig) (e : String) : String :=
  match ext.net (mkHeadReq cfg e) with
  | .ok resp =>
    if respOk resp then "✅ " ++ e ++ " (" ++ toString resp.status ++ ")\n" else ""
  | .error _ => ""

/-- The endpoint listing a successful documentation match appends after
its banner. -/
def docListing (doc : Json) : String := (formatDoc "" doc).1

/-- Whether building the endpoint listing of this document throws (a
null entry under paths). -/
def docListingThrows (doc : Json) : Bool := (formatDoc "" doc).2

/-! ### Concrete fixtures used by witnesses and counterexamples -/

/-- An external world whose fetch always throws and whose JSON.parse
always fails; used where a witness must show behaviour independent of
the network. -/
def extNone : Ext :=
  { net := fun _ => .error "fetch failed"
    jsonParse := fun _ => none
    stringify := fun _ => ""
    stringifyJson := fun _ => ""
    encodeParams := fun _ => "" }

/-- The external world of the C6 witness: the network answers 200 with
the body "not json", which JSON.parse rejects. -/
def extRaw : Ext :=
  { net := fun _ => .ok ⟨200, "OK", [], "not json"⟩
    jsonParse := fun _ => none
    stringify := fun _ => "S"
    stringifyJson := fun _ => ""
    encodeParams := fun _ => "" }

/-- The registry entry of the discovery witnesses. -/
def cfg1 : ApiConfig := ⟨"http://h", defaultHeaders⟩

/-- A one-entry registry holding x. -/
def reg1 : Registry := [("x", cfg1)]

/-- The OpenAPI document of the spec example for discovery. -/
def docBody : Json :=
  Json.obj [("openapi", Json.str "3.0"), ("paths", Json.obj [("/a", Json.obj [("get", Json.obj [])])])]

/-- A generic 404 response. -/
def resp404 : HttpResponse := ⟨404, "Not Found", [], ""⟩

/-- The external world of the C1 witness: /openapi.json serves the spec
example document, every other URL answers 404. -/
def ext1 : Ext :=
  { net := fun r =>
      if r.url = "http://h/openapi.json" then .ok ⟨200, "OK", [], "D"⟩
      else .ok resp404
    jsonParse := fun s => if s = "D" then some docBody else none
    stringify := fun _ => ""
    stringifyJson := fun _ => ""
    encodeParams := fun _ => "" }

/-- The external world of the C1 counterexample: the very first
candidate path answers 200 with a JSON body that contains a paths key
whose value is null; every other URL answers 404. -/
def ext2 : Ext :=
  { net := fun r =>
      if r.url = "http://h/swagger.json" then .ok ⟨200, "OK", [], "N"⟩
      else .ok resp404
    jsonParse := fun s => if s = "N" then some (Json.obj [("paths", Json.null)]) else none
    stringify := fun _ => ""
    stringifyJson := fun _ => ""
    encodeParams := fun _ => "" }

/-- The external world of the C5 witness: every documentation candidate
answers 404, the HEAD probes of / and /health answer 200 and 204, the
probe of /posts throws, and the rest answer 404. -/
def ext3 : Ext :=
  { net := fun r =>
      if r.method = "HEAD" then
        if r.url = "http://h/" then .ok ⟨200, "OK", [], ""⟩
        else if r.url = "http://h/health" then .ok ⟨204, "No Content", [], ""⟩
        else if r.url = "http://h/posts" then .error "connection refused"
        else .ok resp404
      else .ok resp404
    jsonParse := fun _ => none
    stringify := fun _ => ""
    stringifyJson := fun _ => ""
    encodeParams := fun _ => "" }

end Omni

namespace Omni

/-! ### Association list and registry lemmas -/

theorem alistGet_mapSet_self {α : Type} (m : List (String × α)) (k : String) (v : α) :
    alistGet (mapSet m k v) k = some v := by
  induction m with
  | nil => simp [mapSet, alistGet]
  | cons hd tl ih =>
    obtain ⟨n, w⟩ := hd
    by_cases h : n = k
    · subst h
      simp [mapSet, alistGet]
    · simp [mapSet, alistGet, h, ih]

theorem alistGet_mapSet_ne {α : Type} (m : List (String × α)) (k k' : String) (v : α)
    (h : k' ≠ k) : alistGet (mapSet m k v) k' = alistGet m k' := by
  have hkk : k ≠ k' := fun hh => h hh.symm
  induction m with
  | nil => simp [mapSet, alistGet, hkk]
  | cons hd tl ih =>
    obtain ⟨n, w⟩ := hd
    by_cases hn : n = k
    · subst hn
      simp [mapSet, alistGet, hkk]
    · simp [mapSet, alistGet, hn, ih]

theorem keysNodup_mapSet {α : Type} (m : List (String × α)) (k : String) (v : α)
    (h : keysNodup m = true) : keysNodup (mapSet m k v) = true := by
  induction m with
  | nil => simp [mapSet, keysNodup, alistGet]
  | cons hd tl ih =>
    obtain ⟨n, w⟩ := hd
    rw [show keysNodup ((n, w) :: tl) = (!(alistGet tl n).isSome && keysNodup tl) from rfl] at h
    rw [Bool.and_eq_true, Bool.not_eq_true'] at h
    by_cases hn : n = k
    · subst hn
      rw [show mapSet ((n, w) :: tl) n v = (n, v) :: tl from by simp [mapSet]]
      rw [show keysNodup ((n, v) :: tl) = (!(alistGet tl n).isSome && keysNodup tl) from rfl]
      simp [h.1, h.2]
    · rw [show mapSet ((n, w) :: tl) k v = (n, w) :: mapSet tl k v from by simp [mapSet, hn]]
      rw [show keysNodup ((n, w) :: mapSet tl k v) =
            (!(alistGet (mapSet tl k v) n).isSome && keysNodup (mapSet tl k v)) from rfl]
      rw [alistGet_mapSet_ne tl k n v hn]
      simp [h.1, ih h.2]

/-! ### Header merge lemmas -/

theorem alistGet_filter_of_key {α : Type} (hs : List (String × α)) (pred : String × α → Bool)
    (k : String) (hpred : ∀ v, pred (k, v) = true) :
    alistGet (hs.filter pred) k = alistGet hs k := by
  induction hs with
  | nil => simp [alistGet]
  | cons hd tl ih =>
    obtain ⟨n, v⟩ := hd
    by_cases hn : n = k
    · subst hn
      rw [List.filter_cons_of_pos (hpred v)]
      simp [alistGet]
    · by_cases hp : pred (n, v) = true
      · rw [List.filter_cons_of_pos hp]
        simp [alistGet, hn, ih]
      · rw [List.filter_cons_of_neg (by simpa using hp)]
        simp [alistGet, hn, ih]

theorem alistGet_objMerge_default (hs : List (String × String)) (k : String) :
    alistGet (objMerge defaultHeaders hs) k =
      (match alistGet hs k with
       | some v => some v
       | none => alistGet defaultHeaders k) := by
  have hmap : (defaultHeaders.map (fun p =>
      match alistGet hs p.1 with
      | some v => (p.1, v)
      | none => p)) =
      [(("Content-Type" : String),
        (match alistGet hs "Content-Type" with
         | some v => v
         | none => "application/json"))] := by
    cases h : alistGet hs "Content-Type" <;> simp [defaultHeaders, h]
  rw [objMerge, hmap]
  by_cases hck : "Content-Type" = k
  · subst hck
    cases h : alistGet hs "Content-Type" <;> simp [alistGet, defaultHeaders, h]
  · have hskip : alistGet
        ([(("Content-Type" : String),
           (match alistGet hs "Content-Type" with
            | some v => v
            | none => "application/json"))] ++
         hs.filter (fun p => (alistGet defaultHeaders p.1).isNone)) k =
        alistGet (hs.filter (fun p => (alistGet defaultHeaders p.1).isNone)) k := by
      simp [alistGet, hck]
    rw [hskip, alistGet_filter_of_key hs _ k (fun v => by simp [defaultHeaders, alistGet, hck])]
    cases h : alistGet hs k <;> simp [alistGet, defaultHeaders, hck, h]

theorem objMerge_default_nil : objMerge defaultHeaders [] = defaultHeaders := rfl

/-! ### Trailing slash lemmas -/

theorem head_dropWhile_false {α : Type} (p : α → Bool) (l : List α) (x : α) (xs : List α)
    (h : l.dropWhile p = x :: xs) : p x = false := by
  induction l with
  | nil => simp [List.dropWhile] at h
  | cons hd tl ih =>
    by_cases hp : p hd
    · rw [List.dropWhile_cons_of_pos hp] at h
      exact ih h
    · rw [List.dropWhile_cons_of_neg hp] at h
      cases h
      simpa using hp

theorem rev_decomp (p : Char → Bool) (l : List Char) :
    l = (l.reverse.dropWhile p).reverse ++ (l.reverse.takeWhile p).reverse := by
  have h : l.reverse.takeWhile p ++ l.reverse.dropWhile p = l.reverse :=
    List.takeWhile_append_dropWhile p l.reverse
  have h2 : l = (l.reverse.takeWhile p ++ l.reverse.dropWhile p).reverse := by
    rw [h, List.reverse_reverse]
  conv_lhs => rw [h2]
  rw [List.reverse_append]

theorem stripTrailingSlashes_spec (s : String) :
    ∃ k, s.data = (stripTrailingSlashes s).data ++ List.replicate k '/' := by
  refine ⟨(s.data.reverse.takeWhile (fun c => c = '/')).length, ?_⟩
  have hmem : ∀ b ∈ (s.data.reverse.takeWhile (fun c => (c = '/' : Bool))).reverse, b = '/' := by
    intro b hb
    rw [List.mem_reverse] at hb
    simpa using List.mem_takeWhile_imp hb
  have hrep := List.eq_replicate_of_mem hmem
  rw [List.length_reverse] at hrep
  have hdec := rev_decomp (fun c => (c = '/' : Bool)) s.data
  rw [hrep] at hdec
  exact hdec

theorem stripTrailingSlashes_no_trailing (s : String) :
    (match (stripTrailingSlashes s).data.getLast? with
     | some c => c != '/'
     | none => true) = true := by
  show (match (String.mk (s.data.reverse.dropWhile (fun c => c = '/')).reverse).data.getLast? with
        | some c => c != '/'
        | none => true) = true
  rw [show (String.mk (s.data.reverse.dropWhile (fun c => c = '/')).reverse).data =
        (s.data.reverse.dropWhile (fun c => c = '/')).reverse from rfl]
  rw [List.getLast?_reverse]
  cases h : (s.data.reverse.dropWhile (fun c => c = '/')) with
  | nil => rfl
  | cons x xs =>
    have := head_dropWhile_false (fun c => decide (c = '/')) s.data.reverse x xs h
    simp only [List.head?]
    simpa using this

end Omni

namespace Omni

/-! ### C2: call_api on an unregistered name -/

/-- C2: a call_api invocation whose api argument is not a registry key
throws the not-found error naming list_apis as the remediation, and the
request trace is empty: no outbound HTTP request is issued, whatever
the network oracle would answer. -/
theorem c2_call_api_unknown (ext : Ext) (apis : Registry) (a : CallArgs)
    (h : (alistGet apis a.api).isSome = false) :
    callApi ext apis a =
      (.error ("API \"" ++ a.api ++ "\" not found. Use list_apis to see available APIs."), []) ∧
    handleToolCall ext apis (.call_api a) =
      (apis,
       ⟨"Error: " ++ ("API \"" ++ a.api ++ "\" not found. Use list_apis to see available APIs."),
        true⟩,
       []) := by
  have hcall : callApi ext apis a =
      (.error ("API \"" ++ a.api ++ "\" not found. Use list_apis to see available APIs."), []) := by
    simp [callApi, h]
  refine ⟨hcall, ?_⟩
  simp [handleToolCall, rawDispatch, hcall]

/-- Witness for C2 at the concrete input of the spec example. -/
theorem c2_witness :
    (alistGet ([] : Registry) "missing").isSome = false ∧
    callApi extNone [] ⟨"missing", "/e", "GET", none, none⟩ =
      (.error ("API \"" ++ "missing" ++ "\" not found. Use list_apis to see available APIs."),
       []) := by
  refine ⟨by decide, ?_⟩
  exact (c2_call_api_unknown extNone [] ⟨"missing", "/e", "GET", none, none⟩ (by decide)).1

/-! ### C3: header defaulting and merging in add_api -/

/-- C3: the entry stored by addApi carries the caller headers spread
over the default Content-Type header; key-by-key, a caller value wins
on collision and the default application/json survives otherwise, and
an add with no headers stores exactly the default header. -/
theorem c3_add_api_headers (apis : Registry) (name baseUrl : String)
    (headers : List (String × String)) (k : String) :
    alistGet (addApi apis name baseUrl headers).1 name =
      some ⟨stripTrailingSlashes baseUrl, objMerge defaultHeaders headers⟩ ∧
    alistGet (objMerge defaultHeaders headers) k =
      (match alistGet headers k with
       | some v => some v
       | none => alistGet defaultHeaders k) ∧
    alistGet (addApi apis name baseUrl []).1 name =
      some ⟨stripTrailingSlashes baseUrl, defaultHeaders⟩ := by
  refine ⟨?_, alistGet_objMerge_default headers k, ?_⟩
  · exact alistGet_mapSet_self apis name _
  · rw [show (addApi apis name baseUrl []).1 =
        mapSet apis name ⟨stripTrailingSlashes baseUrl, objMerge defaultHeaders []⟩ from rfl]
    rw [objMerge_default_nil]
    exact alistGet_mapSet_self apis name _

/-! ### C4: unique keys, last write wins -/

/-- C4: re-adding a name stores exactly the entry built from the second
call, with no merge from the first, and key uniqueness of the registry
is preserved by every add. -/
theorem c4_add_api_overwrites (apis : Registry) (n u1 u2 : String)
    (h1 h2 : List (String × String)) :
    alistGet (addApi (addApi apis n u1 h1).1 n u2 h2).1 n =
      some ⟨stripTrailingSlashes u2, objMerge defaultHeaders h2⟩ ∧
    (keysNodup apis = true → keysNodup (addApi apis n u2 h2).1 = true) := by
  constructor
  · exact alistGet_mapSet_self _ n _
  · intro h
    exact keysNodup_mapSet apis n _ h

/-- Witness for C4: add x twice with different URLs; the lookup returns
the second entry and uniqueness holds. -/
theorem c4_witness :
    alistGet (addApi (addApi ([] : Registry) "x" "urlA" []).1 "x" "urlB" []).1 "x" =
      some ⟨stripTrailingSlashes "urlB", objMerge defaultHeaders []⟩ ∧
    keysNodup ([] : Registry) = true ∧
    keysNodup (addApi ([] : Registry) "x" "urlB" []).1 = true := by
  refine ⟨(c4_add_api_overwrites [] "x" "urlA" "urlB" [] []).1, by decide, ?_⟩
  exact (c4_add_api_overwrites [] "x" "urlA" "urlB" [] []).2 (by decide)

/-! ### C7: trailing-slash stripping of the base URL -/

/-- C7: the stored baseUrl is the given one with every trailing slash
character removed and nothing else changed: the input decomposes as the
stored value followed by some run of slashes, the stored value has no
trailing slash, and the concrete example of the spec holds. -/
theorem c7_add_api_strips_trailing (apis : Registry) (name baseUrl : String)
    (headers : List (String × String)) :
    alistGet (addApi apis name baseUrl headers).1 name =
      some ⟨stripTrailingSlashes baseUrl, objMerge defaultHeaders headers⟩ ∧
    (∃ k, baseUrl.data = (stripTrailingSlashes baseUrl).data ++ List.replicate k '/') ∧
    (match (stripTrailingSlashes baseUrl).data.getLast? with
     | some c => c != '/'
     | none => true) = true ∧
    stripTrailingSlashes "https://h.test///" = "https://h.test" := by
  refine ⟨alistGet_mapSet_self apis name _, stripTrailingSlashes_spec baseUrl,
    stripTrailingSlashes_no_trailing baseUrl, by decide⟩

end Omni

namespace Omni

/-! ### C8: endpoint slash handling -/

theorem startsWithSlash_slash_append (e : String) : startsWithSlash ("/" ++ e) = true := by
  cases e with
  | mk l => rfl

/-- C8: prefixing a slash to a slashless endpoint builds the same target
URL, the whole call_api invocation is unchanged by it, and an endpoint
already carrying a slash is used verbatim, with no trailing-slash
stripping applied to it. -/
theorem c8_endpoint_slash (ext : Ext) (cfg : ApiConfig) (e : String)
    (params : Option (List (String × String))) (apis : Registry) (a : CallArgs) :
    (startsWithSlash e = false →
      buildUrl ext cfg e params = buildUrl ext cfg ("/" ++ e) params) ∧
    (startsWithSlash e = true → buildUrl ext cfg e none = cfg.baseUrl ++ e) ∧
    (startsWithSlash a.endpoint = false →
      callApi ext apis a = callApi ext apis ⟨a.api, "/" ++ a.endpoint, a.method, a.body, a.params⟩) := by
  refine ⟨?_, ?_, ?_⟩
  · intro h
    simp [buildUrl, h, startsWithSlash_slash_append]
  · intro h
    simp [buildUrl, h]
  · intro h
    have hreq : ∀ c : ApiConfig,
        mkCallReq ext c ⟨a.api, "/" ++ a.endpoint, a.method, a.body, a.params⟩ =
        mkCallReq ext c a := by
      intro c
      simp [mkCallReq, buildUrl, h, startsWithSlash_slash_append]
    cases hget : alistGet apis a.api with
    | none => simp [callApi, hget]
    | some cfg' => simp [callApi, hget, hreq]

/-- Witness for C8 at the concrete endpoint of the spec example. -/
theorem c8_witness :
    startsWithSlash "users" = false ∧
    buildUrl extNone ⟨"https://h.test", defaultHeaders⟩ "users" none =
      buildUrl extNone ⟨"https://h.test", defaultHeaders⟩ ("/" ++ "users") none ∧
    callApi extNone [("x", ⟨"https://h.test", defaultHeaders⟩)]
        ⟨"x", "users", "GET", none, none⟩ =
      callApi extNone [("x", ⟨"https://h.test", defaultHeaders⟩)]
        ⟨"x", "/" ++ "users", "GET", none, none⟩ := by
  refine ⟨by decide, ?_, ?_⟩
  · exact (c8_endpoint_slash extNone ⟨"https://h.test", defaultHeaders⟩ "users" none []
      ⟨"x", "users", "GET", none, none⟩).1 (by decide)
  · exact (c8_endpoint_slash extNone ⟨"https://h.test", defaultHeaders⟩ "users" none
      [("x", ⟨"https://h.test", defaultHeaders⟩)] ⟨"x", "users", "GET", none, none⟩).2.2 (by decide)

/-! ### C6: raw text fallback on parse failure -/

/-- C6: when the outbound call completes and the body fails to parse as
JSON, the raw text becomes the data field of the result and the
invocation succeeds with an unflagged content block. -/
theorem c6_raw_text_fallback (ext : Ext) (apis : Registry) (a : CallArgs)
    (cfg : ApiConfig) (resp : HttpResponse)
    (hget : alistGet apis a.api = some cfg)
    (hnet : ext.net (mkCallReq ext cfg a) = .ok resp)
    (hparse : ext.jsonParse resp.body = none) :
    callApi ext apis a =
      (.ok (⟨resp.status, resp.statusText, resp.headers, .raw resp.body⟩,
            ⟨"🌐 Response from API \"" ++ a.api ++ "\":\n\n" ++
               ext.stringify ⟨resp.status, resp.statusText, resp.headers, .raw resp.body⟩,
             false⟩),
       [mkCallReq ext cfg a]) := by
  simp [callApi, hget, hnet, hparse]

/-- Witness for C6: a body of "not json" is surfaced as raw text in a
successful result. -/
theorem c6_witness :
    alistGet [("x", ApiConfig.mk "https://h.test" defaultHeaders)] "x" =
      some ⟨"https://h.test", defaultHeaders⟩ ∧
    extRaw.net (mkCallReq extRaw ⟨"https://h.test", defaultHeaders⟩ ⟨"x", "/e", "GET", none, none⟩) =
      .ok ⟨200, "OK", [], "not json"⟩ ∧
    extRaw.jsonParse "not json" = none ∧
    callApi extRaw [("x", ⟨"https://h.test", defaultHeaders⟩)] ⟨"x", "/e", "GET", none, none⟩ =
      (.ok (⟨200, "OK", [], .raw "not json"⟩,
            ⟨"🌐 Response from API \"" ++ "x" ++ "\":\n\n" ++
               extRaw.stringify ⟨200, "OK", [], .raw "not json"⟩,
             false⟩),
       [mkCallReq extRaw ⟨"https://h.test", defaultHeaders⟩ ⟨"x", "/e", "GET", none, none⟩]) := by
  refine ⟨by decide, rfl, rfl, ?_⟩
  exact c6_raw_text_fallback extRaw [("x", ⟨"https://h.test", defaultHeaders⟩)]
    ⟨"x", "/e", "GET", none, none⟩ ⟨"https://h.test", defaultHeaders⟩ ⟨200, "OK", [], "not json"⟩
    (by decide) rfl rfl

/-! ### C9: the dispatch boundary catches every failure -/

/-- C9: every failure thrown inside the dispatch try block is converted
into a textual content block flagged isError (with the thrown message
behind the Error prefix); successful handler results pass through
unchanged, and an unrecognized tool name in particular becomes a
flagged unknown-tool error result rather than escaping. -/
theorem c9_dispatch_catches (ext : Ext) (apis : Registry) (call : ToolCall) (n : String) :
    (∀ m, (rawDispatch ext apis call).1 = .error m →
      handleToolCall ext apis call = (apis, ⟨"Error: " ++ m, true⟩, (rawDispatch ext apis call).2)) ∧
    (∀ rc, (rawDispatch ext apis call).1 = .ok rc →
      handleToolCall ext apis call = (rc.1, rc.2, (rawDispatch ext apis call).2)) ∧
    handleToolCall ext apis (.other n) = (apis, ⟨"Error: " ++ ("Unknown tool: " ++ n), true⟩, []) := by
  refine ⟨?_, ?_, ?_⟩
  · intro m hm
    rw [handleToolCall]
    rw [show rawDispatch ext apis call = ((rawDispatch ext apis call).1, (rawDispatch ext apis call).2) from rfl]
    rw [hm]
  · intro rc hrc
    rw [handleToolCall]
    rw [show rawDispatch ext apis call = ((rawDispatch ext apis call).1, (rawDispatch ext apis call).2) from rfl]
    rw [hrc]
  · rfl

/-- Witness for C9: the unknown tool name bogus is caught and flagged. -/
theorem c9_witness :
    (rawDispatch extNone [] (ToolCall.other "bogus")).1 = .error ("Unknown tool: " ++ "bogus") ∧
    handleToolCall extNone [] (ToolCall.other "bogus") =
      ([], ⟨"Error: " ++ ("Unknown tool: " ++ "bogus"), true⟩,
       (rawDispatch extNone [] (ToolCall.other "bogus")).2) := by
  refine ⟨rfl, ?_⟩
  exact (c9_dispatch_catches extNone [] (ToolCall.other "bogus") "bogus").1
    ("Unknown tool: " ++ "bogus") rfl

/-! ### C10: only add_api mutates the registry -/

/-- C10: list_apis, call_api and discover_api leave the registry exactly
as it was, whether they succeed or fail, independently of what the
network did; even an unknown tool leaves it unchanged. -/
theorem c10_registry_frame (ext : Ext) (apis : Registry) (a : CallArgs) (api n : String) :
    (handleToolCall ext apis .list_apis).1 = apis ∧
    (handleToolCall ext apis (.call_api a)).1 = apis ∧
    (handleToolCall ext apis (.discover_api api)).1 = apis ∧
    (handleToolCall ext apis (.other n)).1 = apis := by
  refine ⟨rfl, ?_, ?_, rfl⟩
  · rw [handleToolCall, rawDispatch]
    cases hc : (callApi ext apis a).1 with
    | ok x => simp [hc]
    | error m => simp [hc]
  · rw [handleToolCall, rawDispatch]
    cases hc : (discoverApi ext apis api).1 with
    | ok x => simp [hc]
    | error m => simp [hc]

end Omni

namespace Omni

/-! ### Discovery loop lemmas -/

theorem appendLines_shift (pv : Json) (es : List String) : ∀ (acc1 acc2 : String),
    appendLines pv (acc1 ++ acc2) es =
      (acc1 ++ (appendLines pv acc2 es).1, (appendLines pv acc2 es).2) := by
  induction es with
  | nil => intro acc1 acc2; simp [appendLines]
  | cons e es ih =>
    intro acc1 acc2
    cases h : methodsLine pv e with
    | none => simp [appendLines, h]
    | some line =>
      simp only [appendLines, h]
      rw [String.append_assoc]
      exact ih acc1 (acc2 ++ line)

theorem formatDoc_eq (doc : Json) (d : String) :
    formatDoc d doc = (d ++ docListing doc, docListingThrows doc) := by
  by_cases ht : jTruthyAt doc "paths" = true
  · simp only [formatDoc, docListing, docListingThrows, ht, if_true]
    exact appendLines_shift ((jIndex doc "paths").getD Json.null)
      (jKeys ((jIndex doc "paths").getD Json.null)) d "📋 Available endpoints:\n"
  · have hf : jTruthyAt doc "paths" = false := by simpa using ht
    simp [formatDoc, docListing, docListingThrows, hf]

theorem appendLines_all_some (pv : Json) (ks : List String) : ∀ (acc : String),
    (∀ e ∈ ks, (methodsLine pv e).isSome = true) →
    appendLines pv acc ks =
      (acc ++ concatLines (ks.map (fun e => (methodsLine pv e).getD "")), false) := by
  induction ks with
  | nil => intro acc _; simp [appendLines, concatLines]
  | cons e es ih =>
    intro acc h
    have he : (methodsLine pv e).isSome = true := h e (by simp)
    obtain ⟨line, hline⟩ := Option.isSome_iff_exists.mp he
    simp only [appendLines, hline]
    rw [ih (acc ++ line) (fun x hx => h x (by simp [hx]))]
    simp only [List.map, concatLines, hline, Option.getD_some]
    rw [String.append_assoc]

theorem alistGet_of_mem_nodup {α : Type} (l : List (String × α)) (p : String × α)
    (hmem : p ∈ l) (hnd : keysNodup l = true) : alistGet l p.1 = some p.2 := by
  induction l with
  | nil => cases hmem
  | cons hd tl ih =>
    rw [show keysNodup (hd :: tl) = (!(alistGet tl hd.1).isSome && keysNodup tl) from by
      obtain ⟨n, v⟩ := hd; rfl] at hnd
    rw [Bool.and_eq_true, Bool.not_eq_true'] at hnd
    rcases List.mem_cons.mp hmem with heq | htl
    · subst heq
      obtain ⟨n, v⟩ := p
      simp [alistGet]
    · obtain ⟨n, v⟩ := hd
      have htail := ih htl hnd.2
      by_cases hk : n = p.1
      · subst hk
        rw [htail] at hnd
        simp at hnd
      · simp [alistGet, hk, htail]

theorem docListing_obj (doc : Json) (entries : List (String × Json))
    (hpaths : jIndex doc "paths" = some (.obj entries))
    (hnd : keysNodup entries = true)
    (hvals : ∀ p ∈ entries, ∃ fs, p.2 = Json.obj fs) :
    docListing doc = "📋 Available endpoints:\n" ++
      concatLines (entries.map (fun p =>
        "• " ++ p.1 ++ " [" ++ toUpperStr (String.intercalate ", " (jKeys p.2)) ++ "]\n")) ∧
    docListingThrows doc = false := by
  have ht : jTruthyAt doc "paths" = true := by
    rw [jTruthyAt, hpaths]
    rfl
  have hmethods : ∀ p ∈ entries, methodsLine (Json.obj entries) p.1 =
      some ("• " ++ p.1 ++ " [" ++ toUpperStr (String.intercalate ", " (jKeys p.2)) ++ "]\n") := by
    intro p hp
    obtain ⟨fs, hfs⟩ := hvals p hp
    have hget : jIndex (Json.obj entries) p.1 = some p.2 :=
      alistGet_of_mem_nodup entries p hp hnd
    rw [methodsLine, hget, hfs]
    rfl
  have hsome : ∀ e ∈ entries.map Prod.fst, (methodsLine (Json.obj entries) e).isSome = true := by
    intro e he
    obtain ⟨p, hp, rfl⟩ := List.mem_map.mp he
    rw [hmethods p hp]
    rfl
  have hkeys : jKeys (Json.obj entries) = entries.map Prod.fst := rfl
  have happ := appendLines_all_some (Json.obj entries) (entries.map Prod.fst)
    ("" ++ "📋 Available endpoints:\n") hsome
  have hpv : (jIndex doc "paths").getD Json.null = Json.obj entries := by rw [hpaths]; rfl
  have hmap : (entries.map Prod.fst).map
        (fun e => (methodsLine (Json.obj entries) e).getD "") =
      entries.map (fun p =>
        "• " ++ p.1 ++ " [" ++ toUpperStr (String.intercalate ", " (jKeys p.2)) ++ "]\n") := by
    rw [List.map_map]
    apply List.map_congr_left
    intro p hp
    simp only [Function.comp]
    rw [hmethods p hp]
    rfl
  have hstep : formatDoc "" doc =
      appendLines (Json.obj entries) ("" ++ "📋 Available endpoints:\n") (entries.map Prod.fst) := by
    rw [formatDoc, if_pos ht, hpv]
    rfl
  constructor
  · rw [docListing, hstep, happ, hmap]
    rfl
  · rw [docListingThrows, hstep, happ]

theorem docLoop_all_miss (ext : Ext) (cfg : ApiConfig) (ps : List String) : ∀ (d : String),
    (∀ p ∈ ps, (docProbeResult ext cfg p).isSome = false) →
    docLoop ext cfg ps d = ((none, d), ps.map (mkDocReq cfg)) := by
  induction ps with
  | nil => intro d _; rfl
  | cons p rest ih =>
    intro d h
    have hp : docProbeResult ext cfg p = none := by
      cases hc : docProbeResult ext cfg p with
      | none => rfl
      | some doc =>
        have := h p (by simp)
        rw [hc] at this
        simp at this
    simp [docLoop, hp, ih d (fun q hq => h q (by simp [hq]))]

theorem docLoop_first_match (ext : Ext) (cfg : ApiConfig) (ps : List String) :
    ∀ (k : Nat) (d : String),
    k < ps.length →
    (∀ i, i < k → (docProbeResult ext cfg (ps.getD i "")).isSome = false) →
    (docProbeResult ext cfg (ps.getD k "")).isSome = true →
    docListingThrows (docProbeDoc ext cfg (ps.getD k "")) = false →
    docLoop ext cfg ps d =
      ((some (d ++ "✅ Documentation found at: " ++ ps.getD k "" ++ "\n\n" ++
          docListing (docProbeDoc ext cfg (ps.getD k ""))),
        d ++ "✅ Documentation found at: " ++ ps.getD k "" ++ "\n\n" ++
          docListing (docProbeDoc ext cfg (ps.getD k ""))),
       (ps.take (k + 1)).map (mkDocReq cfg)) := by
  induction ps with
  | nil =>
    intro k d hk
    simp at hk
  | cons p rest ih =>
    intro k d hk hbefore hmatch hfmt
    cases k with
    | zero =>
      cases hprobe : docProbeResult ext cfg p with
      | none =>
        rw [show (p :: rest).getD 0 "" = p from rfl, show docProbeResult ext cfg p =
          none from hprobe] at hmatch
        simp at hmatch
      | some doc =>
        have hdoc : docProbeDoc ext cfg ((p :: rest).getD 0 "") = doc := by
          rw [show (p :: rest).getD 0 "" = p from rfl, docProbeDoc, hprobe]
          rfl
        rw [hdoc] at hfmt
        rw [show (p :: rest).getD 0 "" = p from rfl] at hdoc ⊢
        simp only [docLoop, hprobe]
        rw [formatDoc_eq doc (d ++ "✅ Documentation found at: " ++ p ++ "\n\n")]
        rw [hdoc]
        simp [hfmt]
    | succ k' =>
      have hp0 : docProbeResult ext cfg p = none := by
        have h0 := hbefore 0 (Nat.succ_pos k')
        rw [show (p :: rest).getD 0 "" = p from rfl] at h0
        cases hc : docProbeResult ext cfg p with
        | none => rfl
        | some doc =>
          rw [hc] at h0
          simp at h0
      have ih' := ih k' d (by simpa using Nat.lt_of_succ_lt_succ hk)
        (fun i hi => by
          have := hbefore (i + 1) (Nat.succ_lt_succ hi)
          simpa using this)
        (by simpa using hmatch) (by simpa using hfmt)
      simp [docLoop, hp0, ih']

theorem headLoop_spec (ext : Ext) (cfg : ApiConfig) (es : List String) :
    headLoop ext cfg es =
      (concatLines (es.map (fun e => okLine ext cfg e)), es.map (mkHeadReq cfg)) := by
  induction es with
  | nil => rfl
  | cons e es ih => simp [headLoop, okLine, concatLines, ih]

end Omni

namespace Omni

/-! ### C1: first documentation match wins (amended: JavaScript
truthiness of the doc keys, not bare key presence) -/

/-- C1 (amended): when the first candidate path whose probe matches is
the k-th one (a successful status, a JSON body, and a truthy paths,
swagger or openapi member) and its listing formats without a thrown
TypeError, discover reports that path as the documentation location
with the listing of each key of paths, returns immediately, and the
request trace is exactly the first k+1 candidate GETs: no later
candidate is probed.  The second conjunct spells the listing out: one
line per entry of paths holding the entry key and its method names
comma-joined and uppercased. -/
theorem c1_discover_first_doc_match (ext : Ext) (apis : Registry) (api : String)
    (cfg : ApiConfig) (k : Nat)
    (hget : alistGet apis api = some cfg)
    (hk : k < commonPaths.length)
    (hbefore : ∀ i, i < k → (docProbeResult ext cfg (commonPaths.getD i "")).isSome = false)
    (hmatch : (docProbeResult ext cfg (commonPaths.getD k "")).isSome = true)
    (hfmt : docListingThrows (docProbeDoc ext cfg (commonPaths.getD k "")) = false) :
    discoverApi ext apis api =
      (.ok ⟨"🔍 Trying to discover endpoints for API \"" ++ api ++ "\"...\n\n" ++
            "✅ Documentation found at: " ++ commonPaths.getD k "" ++ "\n\n" ++
            docListing (docProbeDoc ext cfg (commonPaths.getD k "")), false⟩,
       (commonPaths.take (k + 1)).map (mkDocReq cfg)) ∧
    (∀ doc entries, jIndex doc "paths" = some (.obj entries) → keysNodup entries = true →
      (∀ p ∈ entries, ∃ fs, p.2 = Json.obj fs) →
      docListing doc = "📋 Available endpoints:\n" ++
        concatLines (entries.map (fun p =>
          "• " ++ p.1 ++ " [" ++ toUpperStr (String.intercalate ", " (jKeys p.2)) ++ "]\n"))) := by
  constructor
  · have hloop := docLoop_first_match ext cfg commonPaths k
      ("🔍 Trying to discover endpoints for API \"" ++ api ++ "\"...\n\n") hk hbefore hmatch hfmt
    simp [discoverApi, hget, hloop]
  · intro doc entries h1 h2 h3
    exact (docListing_obj doc entries h1 h2 h3).1

/-- Witness for C1 at the spec example: /swagger.json answers 404,
/openapi.json serves the example document, so the match index is 1;
the reported text and the two-request trace are also checked against
their concrete values. -/
theorem c1_witness :
    alistGet reg1 "x" = some cfg1 ∧
    (1 < commonPaths.length) ∧
    (∀ i, i < 1 → (docProbeResult ext1 cfg1 (commonPaths.getD i "")).isSome = false) ∧
    (docProbeResult ext1 cfg1 (commonPaths.getD 1 "")).isSome = true ∧
    docListingThrows (docProbeDoc ext1 cfg1 (commonPaths.getD 1 "")) = false ∧
    discoverApi ext1 reg1 "x" =
      (.ok ⟨"🔍 Trying to discover endpoints for API \"" ++ "x" ++ "\"...\n\n" ++
            "✅ Documentation found at: " ++ commonPaths.getD 1 "" ++ "\n\n" ++
            docListing (docProbeDoc ext1 cfg1 (commonPaths.getD 1 "")), false⟩,
       (commonPaths.take (1 + 1)).map (mkDocReq cfg1)) ∧
    ((discoverApi ext1 reg1 "x").1.toOption.map ToolContent.text) =
      some ("🔍 Trying to discover endpoints for API \"x\"...\n\n" ++
            "✅ Documentation found at: /openapi.json\n\n" ++
            "📋 Available endpoints:\n• /a [GET]\n") ∧
    (discoverApi ext1 reg1 "x").2 = [mkDocReq cfg1 "/swagger.json", mkDocReq cfg1 "/openapi.json"] := by
  have hbefore : ∀ i, i < 1 → (docProbeResult ext1 cfg1 (commonPaths.getD i "")).isSome = false := by
    intro i hi
    have h0 : i = 0 := Nat.lt_one_iff.mp hi
    subst h0
    decide
  refine ⟨by decide, by decide, hbefore, by decide, by decide, ?_, by decide, by decide⟩
  exact (c1_discover_first_doc_match ext1 reg1 "x" cfg1 1 (by decide) (by decide)
    hbefore (by decide) (by decide)).1

/-- Counterexample to C1 as stated: the very first candidate path
/swagger.json answers with a successful status and a JSON body that
does contain a paths key (with value null, which is falsy in
JavaScript), yet discover does not report it as the documentation
location, probes all seven candidates plus the six fallback endpoints,
and falls through to the undiscovered-documentation report. -/
theorem c1_counterexample :
    commonPaths.getD 0 "" = "/swagger.json" ∧
    ((ext2.net (mkDocReq cfg1 "/swagger.json")).toOption.map respOk) = some true ∧
    ((ext2.net (mkDocReq cfg1 "/swagger.json")).toOption.map
        (fun r => (ext2.jsonParse r.body).isSome)) = some true ∧
    ((ext2.net (mkDocReq cfg1 "/swagger.json")).toOption.map
        (fun r => jHasKey ((ext2.jsonParse r.body).getD Json.null) "paths")) = some true ∧
    alistGet reg1 "x" = some cfg1 ∧
    (discoverApi ext2 reg1 "x").2.length = 13 ∧
    ((discoverApi ext2 reg1 "x").1.toOption.map ToolContent.text) =
      some ("🔍 Trying to discover endpoints for API \"x\"...\n\n" ++
            "❌ OpenAPI documentation not found.\n\n" ++
            "🔍 Testing common endpoints...\n\n" ++
            "\n💡 Tip: Check the API documentation for specific endpoints.") := by
  refine ⟨by decide, by decide, by decide, by decide, by decide, by decide, by decide⟩

/-! ### C5: the fallback probe round -/

/-- C5: when every documentation probe misses, discover issues one HEAD
request (no body) per common endpoint, attempts all of them, and the
reported text carries exactly one success line per ok response; a
thrown probe or a non-ok response contributes nothing and no error is
raised. -/
theorem c5_discover_fallback (ext : Ext) (apis : Registry) (api : String) (cfg : ApiConfig)
    (hget : alistGet apis api = some cfg)
    (hmiss : ∀ p ∈ commonPaths, (docProbeResult ext cfg p).isSome = false) :
    discoverApi ext apis api =
      (.ok ⟨"🔍 Trying to discover endpoints for API \"" ++ api ++ "\"...\n\n" ++
            "❌ OpenAPI documentation not found.\n\n" ++
            "🔍 Testing common endpoints...\n\n" ++
            concatLines (commonEndpoints.map (fun e => okLine ext cfg e)) ++
            "\n💡 Tip: Check the API documentation for specific endpoints.", false⟩,
       commonPaths.map (mkDocReq cfg) ++ commonEndpoints.map (mkHeadReq cfg)) ∧
    (∀ e resp, ext.net (mkHeadReq cfg e) = .ok resp →
      okLine ext cfg e =
        (if respOk resp then "✅ " ++ e ++ " (" ++ toString resp.status ++ ")\n" else "")) ∧
    (∀ e m, ext.net (mkHeadReq cfg e) = .error m → okLine ext cfg e = "") := by
  refine ⟨?_, ?_, ?_⟩
  · have hloop := docLoop_all_miss ext cfg commonPaths
      ("🔍 Trying to discover endpoints for API \"" ++ api ++ "\"...\n\n") hmiss
    have hhead := headLoop_spec ext cfg commonEndpoints
    simp [discoverApi, hget, hloop, hhead]
  · intro e resp h
    rw [okLine, h]
  · intro e m h
    rw [okLine, h]

/-- Witness for C5: all documentation candidates answer 404, the HEAD
probes of / and /health succeed, /posts throws; the reported lines are
exactly the two successes, the trace holds all thirteen requests, and
the thrown probe contributes nothing. -/
theorem c5_witness :
    alistGet reg1 "x" = some cfg1 ∧
    (∀ p ∈ commonPaths, (docProbeResult ext3 cfg1 p).isSome = false) ∧
    discoverApi ext3 reg1 "x" =
      (.ok ⟨"🔍 Trying to discover endpoints for API \"" ++ "x" ++ "\"...\n\n" ++
            "❌ OpenAPI documentation not found.\n\n" ++
            "🔍 Testing common endpoints...\n\n" ++
            concatLines (commonEndpoints.map (fun e => okLine ext3 cfg1 e)) ++
            "\n💡 Tip: Check the API documentation for specific endpoints.", false⟩,
       commonPaths.map (mkDocReq cfg1) ++ commonEndpoints.map (mkHeadReq cfg1)) ∧
    ((discoverApi ext3 reg1 "x").1.toOption.map ToolContent.text) =
      some ("🔍 Trying to discover endpoints for API \"x\"...\n\n" ++
            "❌ OpenAPI documentation not found.\n\n" ++
            "🔍 Testing common endpoints...\n\n" ++
            "✅ / (200)\n✅ /health (204)\n" ++
            "\n💡 Tip: Check the API documentation for specific endpoints.") ∧
    okLine ext3 cfg1 "/" = "✅ / (200)\n" ∧
    okLine ext3 cfg1 "/posts" = "" := by
  have hmiss : ∀ p ∈ commonPaths, (docProbeResult ext3 cfg1 p).isSome = false := by decide
  refine ⟨by decide, hmiss, ?_, by decide, by decide, by decide⟩
  exact (c5_discover_fallback ext3 reg1 "x" cfg1 (by decide) hmiss).1

end Omni
